import Mathlib

/-!
Shallow embedding of `aphrussy/loader.rs`: the sharded weight loader,
cache-capacity profiler, shard-manifest resolver and model-config
reconciler. Fallible Rust paths (`Result`, `?`, `bail!`) are modelled
with `Except`/dedicated result constructors; a Rust `panic!`/`assert!`
is modelled as a dedicated constructor or `Option.none`.
-/

set_option autoImplicit false

/-- The safetensors `Dtype` tags named by the spec: boolean, 8/16/32/64-bit
signed and unsigned integers, 16/32/64-bit floats and bfloat16. -/
inductive Dtype where
  | BOOL | U8 | U16 | U32 | U64 | I8 | I16 | I32 | I64 | F16 | BF16 | F32 | F64
deriving DecidableEq, Repr

/-- The `tch::Kind` values produced by `kind_from_dt`. -/
inductive Kind where
  | Bool | Uint8 | Int8 | Int16 | Int | Int64 | BFloat16 | Half | Float | Double
deriving DecidableEq, Repr

/-- Embedding of `kind_from_dt` (loader.rs lines 24-38). The catch-all arm
`panic!("unsupported dtype ...")` is modelled as `none`. -/
def kind_from_dt : Dtype → Option Kind
  | .BOOL => some .Bool
  | .U8 => some .Uint8
  | .I8 => some .Int8
  | .I16 => some .Int16
  | .I32 => some .Int
  | .I64 => some .Int64
  | .BF16 => some .BFloat16
  | .F16 => some .Half
  | .F32 => some .Float
  | .F64 => some .Double
  | _ => none

/-- One named tensor of a safetensors shard: its name, declared shape
(the `size` vector, as `i64` entries) and dtype tag. -/
structure STensor where
  name : String
  shape : List Int
  dtype : Dtype
deriving DecidableEq, Repr

/-- The mutable `vars` table of `load_model`: the `VarStore` variable map,
parameter name to declared shape, modelled as an association list with
distinct keys (a Rust `HashMap`). -/
abbrev Vars := List (String × List Int)

/-- Lookup in the `vars` table, mirroring `HashMap::contains_key`/indexing. -/
def lookupVar : Vars → String → Option (List Int)
  | [], _ => none
  | p :: ps, n => if p.1 == n then some p.2 else lookupVar ps n

/-- Removal from the `vars` table, mirroring `HashMap::remove` (removes the
unique entry with the given key; the first one if keys were duplicated). -/
def removeVar : Vars → String → Vars
  | [], _ => []
  | p :: ps, n => if p.1 == n then ps else p :: removeVar ps n

/-- Element count of a shape (product of its dimensions). -/
def numel (shape : List Int) : Int := shape.foldl (· * ·) 1

/-- Rust `str::ends_with`, on the character sequences of the strings. -/
def endsWithStr (s sfx : String) : Bool := sfx.data.isSuffixOf s.data

/-- Lexicographic order on character sequences, for Rust's `Vec::sort`. -/
def strLeData : List Char → List Char → Bool
  | [], _ => true
  | _ :: _, [] => false
  | a :: as, b :: bs =>
    if a.toNat < b.toNat then true
    else if b.toNat < a.toNat then false
    else strLeData as bs

/-- Lexicographic order on strings. -/
def strLe (a b : String) : Bool := strLeData a.data b.data

/-- Result of processing one named tensor in `load_model`'s inner loop
(loader.rs lines 78-99). `cont` carries the updated table, an optional
logged warning and an optional copied-into slot name; the two panic
constructors carry the table as it stands when the panic fires. -/
inductive StepRes where
  | cont (vars : Vars) (warn : Option String) (copied : Option String)
  | panicDtype (vars : Vars) (dt : Dtype)
  | panicShape (vars : Vars) (tgt src : List Int)
deriving DecidableEq, Repr

/-- One iteration of `load_model`'s inner loop: skip (silently for the
`.inv_freq` suffix, with a warning otherwise) when the name has no slot;
otherwise `read_tensor` (whose `kind_from_dt` call can panic), then
`vars.remove`, then `assert!(var.size() == src_tensor.size())`, then copy.
The removal precedes the assertion, exactly as in the source. -/
def loadStep (vars : Vars) (t : STensor) : StepRes :=
  match lookupVar vars t.name with
  | none =>
    if endsWithStr t.name ".inv_freq" then .cont vars none none
    else .cont vars (some t.name) none
  | some tgtShape =>
    match kind_from_dt t.dtype with
    | none => .panicDtype vars t.dtype
    | some _ =>
      let vars' := removeVar vars t.name
      if tgtShape = t.shape then .cont vars' none (some t.name)
      else .panicShape vars' tgtShape t.shape

/-- The `vars` table carried by a step result: after the step for `cont`,
as it stands at the moment the panic fires for the panic constructors. -/
def StepRes.table : StepRes → Vars
  | .cont v _ _ => v
  | .panicDtype v _ => v
  | .panicShape v _ _ => v

/-- Result of running `load_model`'s loops over every tensor of every
shard, accumulating the logged warnings and the filled slot names. -/
inductive RunRes where
  | done (vars : Vars) (warns copies : List String)
  | panicDtype (vars : Vars) (warns copies : List String) (dt : Dtype)
  | panicShape (vars : Vars) (warns copies : List String) (tgt src : List Int)
deriving DecidableEq, Repr

/-- The filled-slot trace of a run, in order. -/
def RunRes.copies : RunRes → List String
  | .done _ _ c => c
  | .panicDtype _ _ c _ => c
  | .panicShape _ _ c _ _ => c

/-- The table as it stands at the end of the run (or at the panic). -/
def RunRes.vars : RunRes → Vars
  | .done v _ _ => v
  | .panicDtype v _ _ _ => v
  | .panicShape v _ _ _ _ => v

/-- Sequential processing of a tensor stream by `load_model`'s loops. -/
def runTensors (vars : Vars) (warns copies : List String) : List STensor → RunRes
  | [] => .done vars warns copies
  | t :: ts =>
    match loadStep vars t with
    | .cont v w c => runTensors v (warns ++ w.toList) (copies ++ c.toList) ts
    | .panicDtype v dt => .panicDtype v warns copies dt
    | .panicShape v a b => .panicShape v warns copies a b

/-- Overall outcome of `load_model` (loader.rs lines 49-117): success with
the copy/warning traces, the `bail!` listing the leftover variable names,
or one of the two panics. -/
inductive LoadResult where
  | ok (copies warns : List String)
  | errMissing (remaining : List String)
  | panicDtype (dt : Dtype)
  | panicShape (tgt src : List Int)
deriving DecidableEq, Repr

/-- Embedding of `load_model`: shards are processed in order, each shard's
tensors in directory order; after all shards, a non-empty table is a
`bail!` enumerating the remaining names (`vars:?`). -/
def load_model (vars : Vars) (shards : List (List STensor)) : LoadResult :=
  match runTensors vars [] [] shards.flatten with
  | .done v warns copies =>
    if v.length > 0 then .errMissing (v.map Prod.fst) else .ok copies warns
  | .panicDtype _ _ _ dt => .panicDtype dt
  | .panicShape _ _ _ a b => .panicShape a b

/-- The `CacheSize` pair returned by `profile_model`. -/
structure CacheSize where
  cpu : Nat
  gpu : Nat
deriving DecidableEq, Repr

/-- Embedding of `profile_model` (loader.rs lines 188-235). `gpu_mem` is
`gpu_memory_size(device)`; `usable` stands for the already-truncated float
product `(gpu_mem as f64 * gpu_memory_utilization) as isize`; `peak` is
`gpu_peak_allocated_bytes(device) as isize`; `elt_size` is the external
`CacheEngine::get_cache_block_size` result. The `panic!("not enough GPU
memory ...")` on a negative remainder is modelled as `none`. -/
def profile_model (gpu_mem : Nat) (usable peak : Int) (elt_size : Nat) :
    Option CacheSize :=
  let gpu_cache_res : Option Nat :=
    if gpu_mem > 0 then
      let left : Int := usable - peak
      if left < 0 then none else some left.toNat
    else
      some (512 <<< 20)
  match gpu_cache_res with
  | none => none
  | some gpu_cache_size =>
    let max_cpu : Nat := 2 <<< 30
    let cpu_cache_size := min max_cpu gpu_cache_size
    some { cpu := cpu_cache_size / elt_size, gpu := gpu_cache_size / elt_size }

/-- Outcome of reading and interpreting `model.safetensors.index.json`.
`good` is a parsed JSON object whose `weight_map` maps parameter names to
shard-name strings; `badJson` is a document `serde_json` rejects (the `?`
propagates its error); `malformed` is a document that parses as JSON but
whose `weight_map` is not an object of strings, on which the source's
`.as_object().unwrap()` / `.as_str().unwrap()` panics. -/
inductive IndexDoc where
  | good (weightMap : List (String × String))
  | badJson (e : String)
  | malformed
deriving Repr

/-- The repository collaborator as `model_filenames` consumes it: the
result of `repo.read("model.safetensors.index.json")`, the shard-name
resolver `repo.get`, and the `repo.is_local()` flag. -/
structure Repo where
  readIndex : Except String IndexDoc
  get : String → Except String String
  is_local : Bool

/-- Outcome of `model_filenames`: `ok` the resolved local paths, `err` a
propagated `Result` error, `panic` the `unwrap` panic on a malformed
`weight_map`. -/
inductive MFRes where
  | ok (paths : List String)
  | err (e : String)
  | panic
deriving DecidableEq, Repr

/-- Order-preserving deduplication, mirroring collecting the `weight_map`
values into a `HashSet`. -/
def dedupNames (l : List String) : List String :=
  l.foldl (fun acc n => if n ∈ acc then acc else acc ++ [n]) []

/-- Insertion into a sorted list of strings, for `filenames.sort()`. -/
def insertSorted (n : String) : List String → List String
  | [] => [n]
  | m :: ms => if strLe n m then n :: m :: ms else m :: insertSorted n ms

/-- Deterministic sort of the deduplicated shard names (`filenames.sort()`). -/
def sortNames (l : List String) : List String :=
  l.foldr insertSorted []

/-- Resolution of every shard name to a local path:
`filenames.iter().map(|f| repo.get(f)).collect::<Result<Vec<_>>>()`,
which stops at the first failing name. -/
def resolveNames (repo : Repo) : List String → Except String (List String)
  | [] => .ok []
  | n :: ns =>
    match repo.get n with
    | .error e => .error e
    | .ok p =>
      match resolveNames repo ns with
      | .error e => .error e
      | .ok ps => .ok (p :: ps)

/-- True iff `repo.get` succeeds on the given name (`.is_ok()`). -/
def getOk (repo : Repo) (n : String) : Bool :=
  match repo.get n with
  | .ok _ => true
  | .error _ => false

/-- Embedding of `model_filenames` (loader.rs lines 119-148). A failing
`repo.read` of the index (any error, not only absence) selects the
fallback single shard name; a read that succeeds but does not parse
propagates the parse error; the deduplicated, sorted shard names are then
all resolved through `repo.get`, failing on the first unresolvable one. -/
def model_filenames (repo : Repo) : MFRes :=
  match repo.readIndex with
  | .ok (.badJson e) => .err e
  | .ok .malformed => .panic
  | .ok (.good wm) =>
    match resolveNames repo (sortNames (dedupNames (wm.map Prod.snd))) with
    | .ok ps => .ok ps
    | .error e => .err e
  | .error _ =>
    let names :=
      if repo.is_local && getOk repo "model.safetensors-rust" then
        ["model.safetensors-rust"]
      else
        ["model.safetensors"]
    match resolveNames repo names with
    | .ok ps => .ok ps
    | .error e => .err e

/-- The fields of the reconciled `ModelConfig` that `load_model_config`
itself fills in after a schema matches; the architecture-specific payload
produced by `into_config` is abstracted as `arch`. -/
structure MCfg where
  arch : String
  tok_vocab_size : Nat
  profile_step_no : Nat
deriving DecidableEq, Repr

/-- Embedding of `load_one_config` (loader.rs lines 261-288): on a
structural parse success return the config, otherwise append the line
`"{name}: {error}\n"` to the accumulated error string. The parse outcome
of the schema `T` on the raw bytes is the `parsed` argument. -/
def load_one_config (err : String) (name : String)
    (parsed : Except String MCfg) : String × Option MCfg :=
  match parsed with
  | .ok c => (err, some c)
  | .error e => (err ++ name ++ ": " ++ e ++ "\n", none)

/-- Embedding of `load_model_config` (loader.rs lines 237-259): try the
llama schema, then the phi schema (`or_else`, so phi is attempted only if
llama fails); on the first match look up the tokenizer (`tok`, whose
failure propagates) and fill `tok_vocab_size` and `profile_step_no`; if no
schema matches, `bail!` with the aggregated error string. `pl` and `pp`
are the two schemas' parse outcomes on the `config.json` bytes. -/
def load_model_config (pl pp : Except String MCfg) (tok : Except String Nat)
    (psn : Nat) : Except String MCfg :=
  let r0 := load_one_config "" "llama" pl
  let r :=
    match r0.2 with
    | some v => (r0.1, some v)
    | none => load_one_config r0.1 "phi" pp
  match r.2 with
  | some v =>
    match tok with
    | .ok n => .ok { v with tok_vocab_size := n, profile_step_no := psn }
    | .error e => .error e
  | none => .error ("failed to load model config:\n" ++ r.1)

/-! Helper lemmas about the `vars` table. -/

theorem lookupVar_eq_none {vars : Vars} {n : String} :
    lookupVar vars n = none ↔ ∀ p ∈ vars, p.1 ≠ n := by
  induction vars with
  | nil => simp [lookupVar]
  | cons p ps ih =>
    by_cases h : p.1 = n
    · simp [lookupVar, h]
    · simp [lookupVar, h, ih]

theorem lookupVar_mem {vars : Vars} {n : String} {sh : List Int}
    (h : lookupVar vars n = some sh) : (n, sh) ∈ vars := by
  induction vars with
  | nil => simp [lookupVar] at h
  | cons p ps ih =>
    by_cases hp : p.1 = n
    · simp [lookupVar, hp] at h
      exact List.mem_cons.mpr (Or.inl (by cases p; simp_all))
    · simp [lookupVar, hp] at h
      exact List.mem_cons.mpr (Or.inr (ih h))

theorem removeVar_sublist (vars : Vars) (n : String) :
    (removeVar vars n).Sublist vars := by
  induction vars with
  | nil => simp [removeVar]
  | cons p ps ih =>
    by_cases h : p.1 = n
    · simp [removeVar, h]
    · simpa [removeVar, h] using ih.cons₂ p

theorem removeVar_keys_nodup {vars : Vars} {n : String}
    (hnd : (vars.map Prod.fst).Nodup) :
    ((removeVar vars n).map Prod.fst).Nodup :=
  hnd.sublist ((removeVar_sublist vars n).map Prod.fst)

theorem removeVar_eq_filter {vars : Vars} {n : String}
    (hnd : (vars.map Prod.fst).Nodup) :
    removeVar vars n = vars.filter (fun p => !(p.1 == n)) := by
  induction vars with
  | nil => rfl
  | cons p ps ih =>
    simp only [List.map_cons, List.nodup_cons] at hnd
    by_cases h : p.1 = n
    · subst h
      simp only [removeVar, beq_self_eq_true, if_true]
      rw [List.filter_cons_of_neg (by simp)]
      exact (List.filter_eq_self.mpr (fun q hq => by
        simp only [Bool.not_eq_true']
        exact beq_eq_false_iff_ne.mpr (fun he => hnd.1 (he ▸ List.mem_map_of_mem Prod.fst hq)))).symm
    · rw [List.filter_cons_of_pos (by simpa using h)]
      simp [removeVar, h, ih hnd.2]

theorem not_mem_keys_removeVar {vars : Vars} {n : String}
    (hnd : (vars.map Prod.fst).Nodup) :
    n ∉ (removeVar vars n).map Prod.fst := by
  rw [removeVar_eq_filter hnd]
  intro hmem
  obtain ⟨p, hp, hpn⟩ := List.mem_map.mp hmem
  obtain ⟨_, hfilt⟩ := List.mem_filter.mp hp
  simp only [Bool.not_eq_true', beq_eq_false_iff_ne] at hfilt
  exact hfilt (hpn.trans rfl)

theorem profile_model_some_shape {gpu_mem : Nat} {usable peak : Int}
    {elt_size : Nat} {cs : CacheSize}
    (h : profile_model gpu_mem usable peak elt_size = some cs) :
    ∃ g : Nat, cs = ⟨min (2 <<< 30) g / elt_size, g / elt_size⟩ := by
  by_cases hg : 0 < gpu_mem
  · by_cases hl : usable - peak < 0
    · simp [profile_model, hg, hl] at h
    · refine ⟨(usable - peak).toNat, ?_⟩
      simp [profile_model, hg, hl] at h
      exact h.symm
  · refine ⟨512 <<< 20, ?_⟩
    simp [profile_model, hg] at h
    exact h.symm

/-- C4 (counterexample): the dtype-tag mapping panics on the unsigned
16/32/64-bit integer tags, although the claim's listed tag set includes
them; `none` models the `panic!("unsupported dtype ...")` arm. -/
theorem c4_counterexample :
    kind_from_dt Dtype.U16 = none ∧ kind_from_dt Dtype.U32 = none ∧
      kind_from_dt Dtype.U64 = none := by
  decide

/-- C4 (amended): the dtype-tag mapping is total and deterministic over
boolean, unsigned 8-bit, signed 8/16/32/64-bit integer, 16/32/64-bit
float and brain-float tags, and panics for every tag outside that set
(in particular the unsigned 16/32/64-bit integer tags). -/
theorem c4_kind_from_dt_domain :
    ∀ dt : Dtype, (kind_from_dt dt).isSome ↔
      dt ∈ [Dtype.BOOL, Dtype.U8, Dtype.I8, Dtype.I16, Dtype.I32, Dtype.I64,
        Dtype.F16, Dtype.BF16, Dtype.F32, Dtype.F64] := by
  intro dt
  cases dt <;> decide

/-- C2 (counterexample): on a table holding only `"w"` with shape `[2]`
and a supplied tensor `"w"` of shape `[3]`, the step panics on the shape
mismatch, but the table carried at the panic is already empty: the slot
was removed before the mismatch was detected, contradicting the claim
that the table is not mutated for that entry. -/
theorem c2_counterexample :
    loadStep [("w", [2])] ⟨"w", [3], Dtype.F32⟩ = .panicShape [] [2] [3]
    ∧ lookupVar (loadStep [("w", [2])] ⟨"w", [3], Dtype.F32⟩).table "w" = none := by
  decide

/-- C2 (amended): a supplied tensor whose name is in the table but whose
element count mismatches the slot's is a fatal shape panic carrying the
mismatched pair, but the slot has already been removed from the table
when the assertion fires (`vars.remove` precedes the `assert!`). -/
theorem c2_shape_mismatch (vars : Vars) (t : STensor) (sh : List Int)
    (hnd : (vars.map Prod.fst).Nodup)
    (hlook : lookupVar vars t.name = some sh)
    (hkind : (kind_from_dt t.dtype).isSome)
    (hne : numel sh ≠ numel t.shape) :
    loadStep vars t = .panicShape (removeVar vars t.name) sh t.shape
    ∧ t.name ∉ (removeVar vars t.name).map Prod.fst := by
  have hshape : sh ≠ t.shape := fun he => hne (he ▸ rfl)
  obtain ⟨k, hk⟩ := Option.isSome_iff_exists.mp hkind
  refine ⟨?_, not_mem_keys_removeVar hnd⟩
  simp [loadStep, hlook, hk, hshape]

/-- C2 (witness). -/
theorem c2_witness :
    loadStep [("w", [2, 3])] ⟨"w", [7], Dtype.F16⟩ =
      .panicShape (removeVar [("w", [2, 3])] "w") [2, 3] [7]
    ∧ "w" ∉ ((removeVar [("w", [2, 3])] "w").map Prod.fst) :=
  c2_shape_mismatch [("w", [2, 3])] ⟨"w", [7], Dtype.F16⟩ [2, 3]
    (by decide) (by decide) (by decide) (by decide)

/-- C8: a source tensor whose name has no slot in the table is skipped
with the table unchanged and nothing copied; it is skipped silently when
the name ends with the reserved `.inv_freq` suffix and with a logged
missing-target warning otherwise, and in neither case is the step a
panic, so the unmatched tensor cannot fail the load. -/
theorem c8_unmatched_source (vars : Vars) (t : STensor)
    (h : lookupVar vars t.name = none) :
    loadStep vars t =
      .cont vars (if endsWithStr t.name ".inv_freq" then none else some t.name)
        none := by
  by_cases hf : endsWithStr t.name ".inv_freq" <;> simp [loadStep, h, hf]

/-- C8 (witness). -/
theorem c8_witness :
    loadStep [("a", [1])] ⟨"rotary.inv_freq", [4], Dtype.F32⟩ =
      .cont [("a", [1])]
        (if endsWithStr "rotary.inv_freq" ".inv_freq" then none
         else some "rotary.inv_freq") none :=
  c8_unmatched_source [("a", [1])] ⟨"rotary.inv_freq", [4], Dtype.F32⟩ (by decide)

/-- C3: with an accelerator present, if the remaining budget
`R = usable - peak` (where `usable` is the truncated float product
`M * f`) is nonnegative, `profile_model` returns a device block count of
`floor(R / elt_size)`; if `R` is negative it panics (`none`) instead of
returning zero or a negative count. -/
theorem c3_profile_capacity (gpu_mem : Nat) (usable peak : Int)
    (elt_size : Nat) (hgpu : 0 < gpu_mem) :
    (0 ≤ usable - peak →
      profile_model gpu_mem usable peak elt_size =
        some ⟨min (2 <<< 30) (usable - peak).toNat / elt_size,
              (usable - peak).toNat / elt_size⟩)
    ∧ (usable - peak < 0 → profile_model gpu_mem usable peak elt_size = none) := by
  constructor
  · intro h
    simp [profile_model, hgpu, not_lt.mpr h]
  · intro h
    simp [profile_model, hgpu, h]

/-- C3 (witness). -/
theorem c3_witness :
    profile_model 8 100 40 7 =
      some ⟨min (2 <<< 30) (100 - 40 : Int).toNat / 7,
            (100 - 40 : Int).toNat / 7⟩ :=
  (c3_profile_capacity 8 100 40 7 (by decide)).1 (by decide)

/-- C7: every successful run of `profile_model` returns a host (cpu)
block count at most the device (gpu) block count and at most
`floor((2 <<< 30) / elt_size)`, the fixed 2 GiB host cap in blocks. -/
theorem c7_host_le_device (gpu_mem : Nat) (usable peak : Int)
    (elt_size : Nat) (cs : CacheSize)
    (h : profile_model gpu_mem usable peak elt_size = some cs) :
    cs.cpu ≤ cs.gpu ∧ cs.cpu ≤ (2 <<< 30) / elt_size := by
  obtain ⟨g, rfl⟩ := profile_model_some_shape h
  exact ⟨Nat.div_le_div_right (Nat.min_le_right _ _),
    Nat.div_le_div_right (Nat.min_le_left _ _)⟩

/-- C7 (witness). -/
theorem c7_witness :
    profile_model 0 0 0 4 = some ⟨134217728, 134217728⟩ ∧
      (134217728 : Nat) ≤ 134217728 ∧ (134217728 : Nat) ≤ (2 <<< 30) / 4 :=
  ⟨by decide, c7_host_le_device 0 0 0 4 ⟨134217728, 134217728⟩ (by decide)⟩

/-- C10: `profile_model` fails (panics, `none`) exactly when an
accelerator is present and the remaining budget `usable - peak` is
negative; and when the remaining budget is nonnegative but smaller than
one cache block it returns zero device and zero host blocks rather than
failing: there is no minimum-capacity check. -/
theorem c10_profile_failure_iff (gpu_mem : Nat) (usable peak : Int)
    (elt_size : Nat) (hE : 0 < elt_size) :
    (profile_model gpu_mem usable peak elt_size = none ↔
      0 < gpu_mem ∧ usable - peak < 0)
    ∧ (0 < gpu_mem → 0 ≤ usable - peak → usable - peak < (elt_size : Int) →
      profile_model gpu_mem usable peak elt_size = some ⟨0, 0⟩) := by
  constructor
  · constructor
    · intro h
      by_cases hg : 0 < gpu_mem
      · by_cases hl : usable - peak < 0
        · exact ⟨hg, hl⟩
        · simp [profile_model, hg, hl] at h
      · simp [profile_model, hg] at h
    · rintro ⟨hg, hl⟩
      simp [profile_model, hg, hl]
  · intro hg h0 hlt
    have hnl : ¬ usable - peak < 0 := not_lt.mpr h0
    have ht : (usable - peak).toNat < elt_size := by omega
    have h1 : (usable - peak).toNat / elt_size = 0 := Nat.div_eq_of_lt ht
    have h2 : (2147483648 ⊓ (usable - peak).toNat) / elt_size = 0 :=
      Nat.div_eq_of_lt (lt_of_le_of_lt inf_le_right ht)
    simp [profile_model, hg, hnl, h1, h2]

/-- C10 (witness). -/
theorem c10_witness : profile_model 1 5 3 9 = some ⟨0, 0⟩ :=
  (c10_profile_failure_iff 1 5 3 9 (by decide)).2 (by decide) (by decide)
    (by decide)

theorem beq_symm_str (a b : String) : (a == b) = (b == a) := by
  by_cases h : a = b
  · subst h; rfl
  · rw [beq_eq_false_iff_ne.mpr h, beq_eq_false_iff_ne.mpr (Ne.symm h)]

theorem runTensors_matched (ts : List STensor) :
    ∀ (vars : Vars) (warns copies : List String),
    (vars.map Prod.fst).Nodup →
    (∀ p ∈ vars, ∀ t ∈ ts, t.name = p.1 →
      t.shape = p.2 ∧ (kind_from_dt t.dtype).isSome) →
    ∃ w c, runTensors vars warns copies ts =
      .done (vars.filter (fun p => ts.all (fun t => !(t.name == p.1)))) w c := by
  induction ts with
  | nil =>
    intro vars warns copies _ _
    exact ⟨warns, copies, by simp [runTensors]⟩
  | cons t ts ih =>
    intro vars warns copies hnd hgood
    cases hl : lookupVar vars t.name with
    | none =>
      have hne : ∀ p ∈ vars, p.1 ≠ t.name := lookupVar_eq_none.mp hl
      have hstep : ∃ w₀ : Option String, loadStep vars t = .cont vars w₀ none := by
        by_cases hf : endsWithStr t.name ".inv_freq"
        · exact ⟨none, by simp [loadStep, hl, hf]⟩
        · exact ⟨some t.name, by simp [loadStep, hl, hf]⟩
      obtain ⟨w₀, hstep⟩ := hstep
      have hgood' : ∀ p ∈ vars, ∀ t' ∈ ts, t'.name = p.1 →
          t'.shape = p.2 ∧ (kind_from_dt t'.dtype).isSome :=
        fun p hp t' ht' => hgood p hp t' (List.mem_cons_of_mem _ ht')
      obtain ⟨w, c, hrun⟩ :=
        ih vars (warns ++ w₀.toList) (copies ++ (none : Option String).toList)
          hnd hgood'
      refine ⟨w, c, ?_⟩
      simp only [runTensors, hstep]
      rw [hrun]
      congr 1
      refine List.filter_congr (fun p hp => ?_)
      have : (t.name == p.1) = false := beq_eq_false_iff_ne.mpr (fun h => hne p hp h.symm)
      simp [List.all_cons, this]
    | some sh =>
      have hmem : (t.name, sh) ∈ vars := lookupVar_mem hl
      obtain ⟨hsh, hkind⟩ := hgood (t.name, sh) hmem t (List.mem_cons_self _ _) rfl
      obtain ⟨k, hk⟩ := Option.isSome_iff_exists.mp hkind
      have hstep : loadStep vars t = .cont (removeVar vars t.name) none (some t.name) := by
        simp [loadStep, hl, hk, hsh]
      have hnd' := removeVar_keys_nodup (n := t.name) hnd
      have hgood' : ∀ p ∈ removeVar vars t.name, ∀ t' ∈ ts, t'.name = p.1 →
          t'.shape = p.2 ∧ (kind_from_dt t'.dtype).isSome :=
        fun p hp t' ht' =>
          hgood p ((removeVar_sublist vars t.name).subset hp) t'
            (List.mem_cons_of_mem _ ht')
      obtain ⟨w, c, hrun⟩ :=
        ih (removeVar vars t.name) (warns ++ (none : Option String).toList)
          (copies ++ (some t.name).toList) hnd' hgood'
      refine ⟨w, c, ?_⟩
      simp only [runTensors, hstep]
      rw [hrun]
      congr 1
      rw [removeVar_eq_filter hnd, List.filter_filter]
      refine List.filter_congr (fun p hp => ?_)
      simp only [List.all_cons, beq_symm_str t.name p.1]
      exact Bool.and_comm _ _

/-- C1: over a table with distinct parameter names in which every
supplied tensor matching a declared parameter has that parameter's shape
and a recognized dtype tag, (a) if every declared parameter occurs among
the shards' tensors, `load_model` succeeds — the remaining-variable table
is empty; (b) if some declared parameter is absent from all shards,
`load_model` fails after processing all shards with exactly the names of
the declared parameters that no shard supplied, and no others. -/
theorem c1_load_model (vars : Vars) (shards : List (List STensor))
    (hnd : (vars.map Prod.fst).Nodup)
    (hmatch : ∀ p ∈ vars, ∀ t ∈ shards.flatten, t.name = p.1 →
      t.shape = p.2 ∧ (kind_from_dt t.dtype).isSome) :
    ((∀ p ∈ vars, ∃ t ∈ shards.flatten, t.name = p.1) →
      ∃ c w, load_model vars shards = .ok c w)
    ∧ ((∃ p ∈ vars, ∀ t ∈ shards.flatten, t.name ≠ p.1) →
      load_model vars shards = .errMissing ((vars.filter
        (fun p => (shards.flatten).all (fun t => !(t.name == p.1)))).map
          Prod.fst)) := by
  obtain ⟨w, c, hrun⟩ := runTensors_matched shards.flatten vars [] [] hnd hmatch
  constructor
  · intro hall
    have hfilt : vars.filter
        (fun p => (shards.flatten).all (fun t => !(t.name == p.1))) = [] := by
      rw [List.filter_eq_nil_iff]
      intro p hp hpred
      obtain ⟨t, ht, hname⟩ := hall p hp
      rw [List.all_eq_true] at hpred
      have := hpred t ht
      simp [hname] at this
    refine ⟨c, w, ?_⟩
    rw [hfilt] at hrun
    simp [load_model, hrun]
  · rintro ⟨p, hp, habs⟩
    have hmemf : p ∈ vars.filter
        (fun q => (shards.flatten).all (fun t => !(t.name == q.1))) := by
      rw [List.mem_filter]
      refine ⟨hp, ?_⟩
      rw [List.all_eq_true]
      intro t ht
      simp [habs t ht]
    have hpos : 0 < (vars.filter
        (fun q => (shards.flatten).all (fun t => !(t.name == q.1)))).length :=
      List.length_pos_of_mem hmemf
    simp only [load_model, hrun]
    rw [if_pos hpos]

/-- C1 (witness). -/
theorem c1_witness :
    ∃ c w, load_model [("a", [2]), ("b", [3])]
      [[⟨"a", [2], Dtype.F32⟩],
       [⟨"b", [3], Dtype.BF16⟩, ⟨"x.inv_freq", [5], Dtype.U16⟩]] = .ok c w :=
  (c1_load_model [("a", [2]), ("b", [3])]
    [[⟨"a", [2], Dtype.F32⟩],
     [⟨"b", [3], Dtype.BF16⟩, ⟨"x.inv_freq", [5], Dtype.U16⟩]]
    (by decide) (by decide)).1 (by decide)

theorem runTensors_copies_nodup_aux (ts : List STensor) :
    ∀ (vars : Vars) (warns copies : List String),
    (vars.map Prod.fst).Nodup → copies.Nodup →
    (∀ s ∈ copies, s ∉ vars.map Prod.fst) →
    (runTensors vars warns copies ts).copies.Nodup := by
  induction ts with
  | nil =>
    intro vars warns copies _ hc _
    simpa [runTensors, RunRes.copies] using hc
  | cons t ts ih =>
    intro vars warns copies hnd hc hdisj
    cases hl : lookupVar vars t.name with
    | none =>
      have hstep : ∃ w₀ : Option String, loadStep vars t = .cont vars w₀ none := by
        by_cases hf : endsWithStr t.name ".inv_freq"
        · exact ⟨none, by simp [loadStep, hl, hf]⟩
        · exact ⟨some t.name, by simp [loadStep, hl, hf]⟩
      obtain ⟨w₀, hstep⟩ := hstep
      simp only [runTensors, hstep, Option.toList_none, List.append_nil]
      exact ih vars (warns ++ w₀.toList) copies hnd hc hdisj
    | some sh =>
      cases hk : kind_from_dt t.dtype with
      | none =>
        have hstep : loadStep vars t = .panicDtype vars t.dtype := by
          simp [loadStep, hl, hk]
        simp only [runTensors, hstep, RunRes.copies]
        exact hc
      | some k =>
        by_cases hsh : sh = t.shape
        · have hstep : loadStep vars t =
              .cont (removeVar vars t.name) none (some t.name) := by
            simp [loadStep, hl, hk, hsh]
          have hnamemem : t.name ∈ vars.map Prod.fst :=
            List.mem_map_of_mem Prod.fst (lookupVar_mem hl)
          have hnotc : t.name ∉ copies := fun h => hdisj _ h hnamemem
          have hc' : (copies ++ [t.name]).Nodup := by
            simp [List.nodup_append, hc, hnotc]
          have hnd' := removeVar_keys_nodup (n := t.name) hnd
          have hdisj' : ∀ s ∈ copies ++ [t.name],
              s ∉ (removeVar vars t.name).map Prod.fst := by
            intro s hs
            rcases List.mem_append.mp hs with h1 | h2
            · exact fun hmem => hdisj s h1
                (((removeVar_sublist vars t.name).map Prod.fst).subset hmem)
            · simp only [List.mem_singleton] at h2
              subst h2
              exact not_mem_keys_removeVar hnd
          simp only [runTensors, hstep, Option.toList_none, Option.toList_some,
            List.append_nil]
          exact ih (removeVar vars t.name) warns (copies ++ [t.name]) hnd' hc' hdisj'
        · have hstep : loadStep vars t =
              .panicShape (removeVar vars t.name) sh t.shape := by
            simp [loadStep, hl, hk, hsh]
          simp only [runTensors, hstep, RunRes.copies]
          exact hc

/-- C9: on a table with distinct parameter names, every parameter slot is
written at most once — the trace of filled slot names over any run has no
duplicate — and any tensor whose name is no longer in the table (for
example a later occurrence of an already-filled name) is merely skipped:
the step leaves the table unchanged, copies nothing and never panics, so
a duplicate cannot overwrite a filled slot or fail the load. -/
theorem c9_write_once (vars : Vars) (ts : List STensor)
    (hnd : (vars.map Prod.fst).Nodup) :
    (runTensors vars [] [] ts).copies.Nodup
    ∧ ∀ (v : Vars) (t : STensor), lookupVar v t.name = none →
      ∃ w, loadStep v t = .cont v w none := by
  refine ⟨runTensors_copies_nodup_aux ts vars [] []
    hnd List.nodup_nil (by simp), ?_⟩
  intro v t h
  by_cases hf : endsWithStr t.name ".inv_freq"
  · exact ⟨none, by simp [loadStep, h, hf]⟩
  · exact ⟨some t.name, by simp [loadStep, h, hf]⟩

/-- C9 (witness): a shard stream supplying `"a"` twice — the second time
with a different shape and an unrecognized dtype — still fills the slot
once, and the duplicate's step on the already-consumed table is a skip. -/
theorem c9_witness :
    (runTensors [("a", [2])] [] []
      [⟨"a", [2], Dtype.F32⟩, ⟨"a", [9], Dtype.U16⟩]).copies.Nodup
    ∧ ∃ w, loadStep [] ⟨"a", [9], Dtype.U16⟩ = .cont [] w none :=
  ⟨(c9_write_once [("a", [2])] [⟨"a", [2], Dtype.F32⟩, ⟨"a", [9], Dtype.U16⟩]
      (by decide)).1,
   (c9_write_once [("a", [2])] [⟨"a", [2], Dtype.F32⟩, ⟨"a", [9], Dtype.U16⟩]
      (by decide)).2 [] ⟨"a", [9], Dtype.U16⟩ (by decide)⟩

theorem resolveNames_dichotomy (repo : Repo) (l : List String) :
    (∃ ps, resolveNames repo l = .ok ps ∧ ps.length = l.length)
    ∨ (∃ e, resolveNames repo l = .error e ∧ ∃ n ∈ l, repo.get n = .error e) := by
  induction l with
  | nil => exact Or.inl ⟨[], rfl, rfl⟩
  | cons a l ih =>
    cases hg : repo.get a with
    | error e =>
      exact Or.inr ⟨e, by simp [resolveNames, hg], a, List.mem_cons_self _ _, hg⟩
    | ok p =>
      rcases ih with ⟨ps, hps, hlen⟩ | ⟨e, he, n, hn, hgn⟩
      · exact Or.inl ⟨p :: ps, by simp [resolveNames, hg, hps], by simp [hlen]⟩
      · exact Or.inr ⟨e, by simp [resolveNames, hg, he], n,
          List.mem_cons_of_mem _ hn, hgn⟩

/-- C5 (counterexample): a repository whose index document read fails
(`repo.read` returns an error) does not make `model_filenames` fail: the
source's `if let Ok(idx)` treats every read error as absence and falls
back to the default shard name, here resolving successfully — the claim
says an unreadable index is fatal. -/
theorem c5_counterexample :
    model_filenames ⟨.error "io error", fun n => .ok ("/m/" ++ n), false⟩ =
      .ok ["/m/model.safetensors"]
    ∧ (⟨.error "io error", fun n => .ok ("/m/" ++ n), false⟩ : Repo).readIndex =
      .error "io error" := by
  constructor
  · rfl
  · rfl

/-- C5 (amended): an index that reads but fails JSON parsing is fatal
(the parse error propagates); when the index reads and parses, every
referenced shard name must resolve — the result is either the full
resolved list (one path per deduplicated, sorted shard name, never a
subset) or the first resolution error; but a repository whose index READ
fails is not fatal: the loader falls back to resolving a single default
shard name. -/
theorem c5_resolution (repo : Repo) :
    (∀ e, repo.readIndex = .ok (.badJson e) → model_filenames repo = .err e)
    ∧ (∀ wm, repo.readIndex = .ok (.good wm) →
      (∃ ps, model_filenames repo = .ok ps ∧
        ps.length = (sortNames (dedupNames (wm.map Prod.snd))).length)
      ∨ (∃ e, model_filenames repo = .err e ∧
        ∃ n ∈ sortNames (dedupNames (wm.map Prod.snd)), repo.get n = .error e))
    ∧ (∀ e, repo.readIndex = .error e →
      ∃ n, (n = "model.safetensors-rust" ∨ n = "model.safetensors") ∧
        model_filenames repo = match repo.get n with
          | .ok p => .ok [p]
          | .error e' => .err e') := by
  refine ⟨?_, ?_, ?_⟩
  · intro e h
    simp [model_filenames, h]
  · intro wm h
    rcases resolveNames_dichotomy repo (sortNames (dedupNames (wm.map Prod.snd)))
      with ⟨ps, hps, hlen⟩ | ⟨e, he, n, hn, hgn⟩
    · exact Or.inl ⟨ps, by simp [model_filenames, h, hps], hlen⟩
    · exact Or.inr ⟨e, by simp [model_filenames, h, he], n, hn, hgn⟩
  · intro e h
    by_cases hc : repo.is_local && getOk repo "model.safetensors-rust"
    · refine ⟨"model.safetensors-rust", Or.inl rfl, ?_⟩
      cases hg : repo.get "model.safetensors-rust" with
      | ok p => simp [model_filenames, h, hc, resolveNames, hg]
      | error e' => simp [model_filenames, h, hc, resolveNames, hg]
    · refine ⟨"model.safetensors", Or.inr rfl, ?_⟩
      cases hg : repo.get "model.safetensors" with
      | ok p => simp [model_filenames, h, hc, resolveNames, hg]
      | error e' => simp [model_filenames, h, hc, resolveNames, hg]

/-- C5 (witness). -/
theorem c5_witness :
    model_filenames ⟨.ok (.badJson "bad json"), fun n => .ok n, true⟩ =
      .err "bad json" :=
  (c5_resolution ⟨.ok (.badJson "bad json"), fun n => .ok n, true⟩).1
    "bad json" rfl

/-- C6: config reconciliation returns the config produced by the first
schema that structurally parses (llama is tried before phi, and phi is
not consulted when llama matches), merging in the tokenizer vocabulary
size and the profiling step count; when neither schema parses, it fails
with an aggregated error containing one line per attempted schema, each
naming the schema and its individual parse error. -/
theorem c6_first_match (pl pp : Except String MCfg) (tok : Except String Nat)
    (psn : Nat) :
    (∀ c n, pl = .ok c → tok = .ok n →
      load_model_config pl pp tok psn =
        .ok { c with tok_vocab_size := n, profile_step_no := psn })
    ∧ (∀ e1 c n, pl = .error e1 → pp = .ok c → tok = .ok n →
      load_model_config pl pp tok psn =
        .ok { c with tok_vocab_size := n, profile_step_no := psn })
    ∧ (∀ e1 e2, pl = .error e1 → pp = .error e2 →
      load_model_config pl pp tok psn =
        .error ("failed to load model config:\n" ++
          ("llama: " ++ e1 ++ "\n" ++ "phi: " ++ e2 ++ "\n"))) := by
  refine ⟨?_, ?_, ?_⟩
  · rintro c n rfl rfl
    simp [load_model_config, load_one_config]
  · rintro e1 c n rfl rfl rfl
    simp [load_model_config, load_one_config]
  · rintro e1 e2 rfl rfl
    simp [load_model_config, load_one_config, String.append_assoc]

/-- C6 (witness). -/
theorem c6_witness :
    load_model_config (.error "no llama") (.ok ⟨"phi", 0, 0⟩) (.ok 7) 3 =
      .ok { arch := "phi", tok_vocab_size := 7, profile_step_no := 3 } :=
  (c6_first_match (.error "no llama") (.ok ⟨"phi", 0, 0⟩) (.ok 7) 3).2.1
    "no llama" ⟨"phi", 0, 0⟩ 7 rfl rfl rfl
